import Mathlib

set_option maxRecDepth 8000

/-!
Verification of the remap-function fragment of the `vector` repository:
the `join` function (src/lib/remap-functions/src/join.rs) and the
`parse_common_log` function (src/lib/remap-functions/src/parse_common_log.rs),
together with the `Value` / `TypeDef` models of the remap engine they build on.

The `Value` and `TypeDef` definitions live in the remap-lang crate, which is
not part of the source files given here; those definitions are modelled from
the specification (sections 3, 4.1 and 4.2).  External-crate behaviour that
the two functions depend on (Rust `String::from_utf8_lossy` and UTF-8
encoding, `str::parse::<i64>`, chrono's `DateTime::parse_from_str`, and the
`regex` crate's leftmost-first capture semantics) is embedded directly, with
Unicode character classes interpreted on their ASCII subsets, which the
claims' inputs stay inside.
-/

/- ### Value model -/

/-- Modelled from the spec: the runtime value union of the remap engine
(spec section 3).  `bytes` carries raw bytes as a list of naturals,
`timestamp` a UTC instant as Unix epoch seconds, `float` an IEEE-754 bit
pattern (never computed with here), and `map` a key-sorted association list
mirroring Rust's `BTreeMap` iteration order. -/
inductive Value where
  | bytes (b : List Nat)
  | integer (i : Int)
  | float (bits : Nat)
  | boolean (b : Bool)
  | timestamp (epochSeconds : Int)
  | array (l : List Value)
  | map (m : List (String × Value))
  | null
  | regexV (pat : String)

/-- Name of a value's runtime kind, used in type-mismatch error messages. -/
def Value.kindName : Value → String
  | .bytes _ => "bytes"
  | .integer _ => "integer"
  | .float _ => "float"
  | .boolean _ => "boolean"
  | .timestamp _ => "timestamp"
  | .array _ => "array"
  | .map _ => "map"
  | .null => "null"
  | .regexV _ => "regex"

/- ### UTF-8 (Rust `String` encoding and `String::from_utf8_lossy`) -/

/-- UTF-8 encoding of one Unicode scalar value, as Rust's `String` stores
characters. -/
def utf8EncodeChar (c : Char) : List Nat :=
  let n := c.toNat
  if n < 0x80 then [n]
  else if n < 0x800 then [0xC0 + n / 64, 0x80 + n % 64]
  else if n < 0x10000 then [0xE0 + n / 4096, 0x80 + n / 64 % 64, 0x80 + n % 64]
  else [0xF0 + n / 262144, 0x80 + n / 4096 % 64, 0x80 + n / 64 % 64, 0x80 + n % 64]

/-- UTF-8 encoding of a string: the byte content of a Rust `String`. -/
def utf8Encode (s : String) : List Nat :=
  (s.data.map utf8EncodeChar).flatten

/-- The U+FFFD replacement character emitted by lossy UTF-8 decoding. -/
def replChar : Char := Char.ofNat 0xFFFD

/-- Whether a byte is a UTF-8 continuation byte (`10xxxxxx`). -/
def isCont (b : Nat) : Bool := 0x80 ≤ b && b < 0xC0

/-- Lossy UTF-8 decoding of a byte sequence, as Rust's
`String::from_utf8_lossy`: well-formed sequences decode to their scalar
value, and each maximal invalid subpart is replaced by one U+FFFD
(overlong encodings, surrogates and values above U+10FFFF are invalid).
The fuel argument only serves structural recursion; it is at least the
number of bytes remaining plus one at every call, so the base case is
never reached. -/
def utf8LossyAux : Nat → List Nat → List Char
  | 0, _ => []
  | _ + 1, [] => []
  | fuel + 1, b :: rest =>
    if b < 0x80 then Char.ofNat b :: utf8LossyAux fuel rest
    else if b < 0xC2 then replChar :: utf8LossyAux fuel rest
    else if b < 0xE0 then
      match rest with
      | b2 :: rest2 =>
        if isCont b2 then Char.ofNat ((b - 0xC0) * 64 + (b2 - 0x80)) :: utf8LossyAux fuel rest2
        else replChar :: utf8LossyAux fuel (b2 :: rest2)
      | [] => [replChar]
    else if b < 0xF0 then
      match rest with
      | b2 :: rest2 =>
        if (if b = 0xE0 then 0xA0 else 0x80) ≤ b2 && b2 < (if b = 0xED then 0xA0 else 0xC0) then
          match rest2 with
          | b3 :: rest3 =>
            if isCont b3 then
              Char.ofNat ((b - 0xE0) * 4096 + (b2 - 0x80) * 64 + (b3 - 0x80)) :: utf8LossyAux fuel rest3
            else replChar :: utf8LossyAux fuel (b3 :: rest3)
          | [] => [replChar]
        else replChar :: utf8LossyAux fuel (b2 :: rest2)
      | [] => [replChar]
    else if b < 0xF5 then
      match rest with
      | b2 :: rest2 =>
        if (if b = 0xF0 then 0x90 else 0x80) ≤ b2 && b2 < (if b = 0xF4 then 0x90 else 0xC0) then
          match rest2 with
          | b3 :: rest3 =>
            if isCont b3 then
              match rest3 with
              | b4 :: rest4 =>
                if isCont b4 then
                  Char.ofNat ((b - 0xF0) * 262144 + (b2 - 0x80) * 4096 + (b3 - 0x80) * 64 + (b4 - 0x80))
                    :: utf8LossyAux fuel rest4
                else replChar :: utf8LossyAux fuel (b4 :: rest4)
              | [] => [replChar]
            else replChar :: utf8LossyAux fuel (b3 :: rest3)
          | [] => [replChar]
        else replChar :: utf8LossyAux fuel (b2 :: rest2)
      | [] => [replChar]
    else replChar :: utf8LossyAux fuel rest

/-- Lossy UTF-8 decoding of a byte list. -/
def utf8LossyList (l : List Nat) : List Char := utf8LossyAux (l.length + 1) l

/-- Lossy UTF-8 decoding producing a string. -/
def utf8Lossy (b : List Nat) : String := String.mk (utf8LossyList b)

/- ### Value accessors -/

/-- Modelled from the spec: `Value::try_bytes` (spec section 4.1) — the
byte payload, or a descriptive failure naming expected vs. actual kind. -/
def Value.try_bytes : Value → Except String (List Nat)
  | .bytes b => .ok b
  | v => .error ("expected bytes, got " ++ v.kindName)

/-- Modelled from the spec: `Value::try_array` (spec section 4.1). -/
def Value.try_array : Value → Except String (List Value)
  | .array l => .ok l
  | v => .error ("expected array, got " ++ v.kindName)

/-- Modelled from the spec: `Value::try_bytes_utf8_lossy` (spec
section 4.1) — the byte payload decoded lossily as UTF-8, or a
descriptive failure on any non-bytes value. -/
def Value.try_bytes_utf8_lossy : Value → Except String String
  | .bytes b => .ok (utf8Lossy b)
  | v => .error ("expected bytes, got " ++ v.kindName)

/- ### TypeDef model -/

/-- Modelled from the spec: the kinds a `Value` can have at runtime
(spec section 3). -/
inductive VKind where
  | bytes
  | integer
  | float
  | boolean
  | timestamp
  | array
  | map
  | null
  | regexK
deriving DecidableEq

/-- A set of possible kinds, as a list. -/
abbrev KindSet := List VKind

/-- Boolean subset test on kind sets. -/
def KindSet.subsetOf (a b : KindSet) : Bool := a.all (fun k => b.contains k)

/-- Modelled from the spec: the compile-time type descriptor — the set of
kinds an expression may produce and whether its execution can fail
(spec section 3). -/
structure TypeDef where
  fallible : Bool
  kind : KindSet

/-- Modelled from the spec: `TypeDef::into_fallible` force-sets the
fallibility flag (spec section 4.2). -/
def TypeDef.into_fallible (td : TypeDef) (f : Bool) : TypeDef :=
  { td with fallible := f }

/-- Modelled from the spec: `TypeDef::fallible_unless` marks the descriptor
fallible unless the kind is already known to be a subset of the safe set;
an already-fallible descriptor stays fallible (spec sections 3 and 4.2:
fallibility is never under-reported). -/
def TypeDef.fallible_unless (td : TypeDef) (ks : KindSet) : TypeDef :=
  if td.kind.subsetOf ks then td else { td with fallible := true }

/-- Modelled from the spec: `TypeDef::with_constraint` pins the result kind
regardless of the inferred input kind (spec section 4.2). -/
def TypeDef.with_constraint (td : TypeDef) (ks : KindSet) : TypeDef :=
  { td with kind := ks }

/-- Embeds `JoinFn::type_def` (join.rs lines 70-78): the child's descriptor
forced fallible and constrained to `Kind::Bytes`. -/
def JoinFn.type_def (child : TypeDef) : TypeDef :=
  (child.into_fallible true).with_constraint [VKind.bytes]

/-- Embeds `ParseCommonLogFn::type_def` (parse_common_log.rs lines 153-158):
the child's descriptor, fallible unless the child kind is `Kind::Bytes`,
constrained to `Kind::Map`. -/
def ParseCommonLogFn.type_def (child : TypeDef) : TypeDef :=
  (child.fallible_unless [VKind.bytes]).with_constraint [VKind.map]

/- ### The join function (join.rs) -/

/-- Rust slice `join`: the elements concatenated with the separator between
consecutive elements. -/
def joinStrings (sep : String) : List String → String
  | [] => ""
  | [s] => s
  | s :: rest => s ++ sep ++ joinStrings sep rest

/-- Byte-level analogue of `joinStrings`, used to state what `join` returns
in terms of the input byte strings. -/
def joinBytes (sep : List Nat) : List (List Nat) → List Nat
  | [] => []
  | [b] => b
  | b :: rest => b ++ sep ++ joinBytes sep rest

/-- Embeds the element-conversion loop of `JoinFn::execute` (join.rs lines
42-52): `try_bytes_utf8_lossy` on each element, collected into the first
error or the list of all decoded strings. -/
def traverseLossy : List Value → Except String (List String)
  | [] => .ok []
  | v :: vs =>
    match v.try_bytes_utf8_lossy with
    | .error e => .error e
    | .ok s =>
      match traverseLossy vs with
      | .error e => .error e
      | .ok ss => .ok (s :: ss)

/-- Embeds `JoinFn::execute` (join.rs lines 41-68).  The two stored
sub-expressions are represented by their evaluation outcomes: `value` is the
result of executing the `value` expression, `separator` the result of
executing the separator expression when one was supplied.  Elements are
converted with `try_bytes_utf8_lossy` (failing the whole call with the fixed
message on any non-bytes element), the separator must resolve to bytes and
is decoded lossily (defaulting to the empty string), and the result is the
joined string as a `Bytes` value. -/
def JoinFn.execute (value : Except String Value) (separator : Option (Except String Value)) :
    Except String Value :=
  match value with
  | .error e => .error e
  | .ok v =>
    match v.try_array with
    | .error e => .error e
    | .ok arr =>
      match traverseLossy arr with
      | .error _ => .error "all array items must be strings"
      | .ok strs =>
        match separator with
        | none => .ok (Value.bytes (utf8Encode (joinStrings "" strs)))
        | some sepE =>
          match sepE with
          | .error e => .error e
          | .ok sv =>
            match sv.try_bytes with
            | .error e => .error e
            | .ok sb => .ok (Value.bytes (utf8Encode (joinStrings (utf8Lossy sb) strs)))

/- ### Backtracking regex engine (regex crate, leftmost-first semantics) -/

/-- Regular-expression syntax: characters, character classes, sequencing,
ordered alternation, lazy and greedy star, and named capture groups
(identified by index). -/
inductive Re where
  | eps
  | ch (c : Char)
  | cls (p : Char → Bool)
  | seq (a b : Re)
  | alt (a b : Re)
  | starL (r : Re)
  | starG (r : Re)
  | group (i : Nat) (r : Re)

/-- Capture results of `REGEX_COMMON_LOG`: one optional captured substring
per named group. -/
structure Caps where
  host : Option String := none
  identity : Option String := none
  user : Option String := none
  timestamp : Option String := none
  message : Option String := none
  method : Option String := none
  path : Option String := none
  protocol : Option String := none
  status : Option String := none
  size : Option String := none
deriving DecidableEq

/-- Record the capture of group `i`. -/
def Caps.set (c : Caps) (i : Nat) (s : String) : Caps :=
  match i with
  | 0 => { c with host := some s }
  | 1 => { c with identity := some s }
  | 2 => { c with user := some s }
  | 3 => { c with timestamp := some s }
  | 4 => { c with message := some s }
  | 5 => { c with method := some s }
  | 6 => { c with path := some s }
  | 7 => { c with protocol := some s }
  | 8 => { c with status := some s }
  | _ => { c with size := some s }

/-- Fuelled backtracking matcher in continuation-passing style, reproducing
the leftmost-first (Perl-like) match and capture semantics of the Rust
`regex` crate: alternatives are tried left to right, greedy stars prefer
longer iterations, lazy stars prefer shorter ones, and a group records the
substring it consumed on the successful path.  The fuel only bounds the
recursion depth; `regexCaptures` supplies far more than any path through
`REGEX_COMMON_LOG` can use. -/
def mmatch : Nat → Re → List Char → Caps → (List Char → Caps → Option Caps) → Option Caps
  | 0, _, _, _, _ => none
  | _ + 1, .eps, s, caps, k => k s caps
  | _ + 1, .ch c, s, caps, k =>
    match s with
    | [] => none
    | c' :: s' => if c' = c then k s' caps else none
  | _ + 1, .cls p, s, caps, k =>
    match s with
    | [] => none
    | c' :: s' => if p c' then k s' caps else none
  | fuel + 1, .seq a b, s, caps, k =>
    mmatch fuel a s caps (fun s' caps' => mmatch fuel b s' caps' k)
  | fuel + 1, .alt a b, s, caps, k =>
    match mmatch fuel a s caps k with
    | some res => some res
    | none => mmatch fuel b s caps k
  | fuel + 1, .starL r, s, caps, k =>
    match k s caps with
    | some res => some res
    | none => mmatch fuel r s caps (fun s' caps' => mmatch fuel (.starL r) s' caps' k)
  | fuel + 1, .starG r, s, caps, k =>
    match mmatch fuel r s caps (fun s' caps' => mmatch fuel (.starG r) s' caps' k) with
    | some res => some res
    | none => k s caps
  | fuel + 1, .group i r, s, caps, k =>
    mmatch fuel r s caps
      (fun s' caps' => k s' (caps'.set i (String.mk (s.take (s.length - s'.length)))))

/-- ASCII whitespace matched by the regex class `\s`. -/
def isSpaceCh (c : Char) : Bool :=
  c = ' ' || c = '\t' || c = '\n' || c = '\r' || c = '\x0b' || c = '\x0c'

/-- ASCII word characters matched by the regex class `\w`. -/
def isWordCh (c : Char) : Bool := c.isAlpha || c.isDigit || c = '_'

/-- ASCII digits matched by the regex class `\d`. -/
def isDigitCh (c : Char) : Bool := c.isDigit

/-- The regex `.`: any character except a newline. -/
def isDotCh (c : Char) : Bool := c ≠ '\n'

/-- The regex class `[^\[]`: any character except an opening bracket. -/
def isNotLBracketCh (c : Char) : Bool := c ≠ '['

/-- The regex class `[[\\"][^"]]`: the union of the class containing
backslash and quote with the class of everything but a quote, which
together admit every character. -/
def isAnyCh (_ : Char) : Bool := true

/-- Sequence a list of regex fragments. -/
def rcat (l : List Re) : Re := l.foldr .seq .eps

/-- Greedy one-or-more. -/
def plusG (r : Re) : Re := .seq r (.starG r)

/-- Embeds `REGEX_COMMON_LOG` (parse_common_log.rs lines 11-29), group by
group in source order.  Groups: 0 host, 1 identity, 2 user, 3 timestamp,
4 message, 5 method, 6 path, 7 protocol, 8 status, 9 size. -/
def commonLogRe : Re := rcat [
  .starG (.cls isSpaceCh),
  .alt (.ch '-') (.group 0 (.starL (.cls isDotCh))),
  plusG (.cls isSpaceCh),
  .alt (.ch '-') (.group 1 (.starL (.cls isDotCh))),
  plusG (.cls isSpaceCh),
  .alt (.ch '-') (.group 2 (.starL (.cls isDotCh))),
  plusG (.cls isSpaceCh),
  .alt (.ch '-') (rcat [.ch '[',
    .alt (.ch '-') (.group 3 (.starG (.cls isNotLBracketCh))), .ch ']']),
  plusG (.cls isSpaceCh),
  .alt (.ch '-') (rcat [.ch '"',
    .alt (.ch '-') (rcat [.starG (.cls isSpaceCh),
      .group 4 (.alt
        (rcat [.group 5 (plusG (.cls isWordCh)), plusG (.cls isSpaceCh),
               .group 6 (.starL (.cls isAnyCh)), plusG (.cls isSpaceCh),
               .group 7 (.starL (.cls isAnyCh)), .starG (.cls isSpaceCh)])
        (.starL (.cls isAnyCh))),
      .starG (.cls isSpaceCh)]),
    .ch '"']),
  plusG (.cls isSpaceCh),
  .alt (.ch '-') (.group 8 (plusG (.cls isDigitCh))),
  plusG (.cls isSpaceCh),
  .alt (.ch '-') (.group 9 (plusG (.cls isDigitCh))),
  .starG (.cls isSpaceCh)
]

/-- Embeds `REGEX_COMMON_LOG.captures(message)`: the pattern is anchored at
the start by `^` and has no end anchor, so it is matched from position
zero with arbitrary input allowed to remain. -/
def regexCaptures (s : String) : Option Caps :=
  mmatch 100000 commonLogRe s.data {} (fun _ caps => some caps)

/- ### Calendar arithmetic and the chrono model -/

/-- Days from 1970-01-01 to the given proleptic-Gregorian civil date
(Howard Hinnant's `days_from_civil` algorithm, as used by chrono's
calendar arithmetic). -/
def daysFromCivil (y : Int) (m d : Nat) : Int :=
  let y' : Int := if m ≤ 2 then y - 1 else y
  let era : Int := (if 0 ≤ y' then y' else y' - 399) / 400
  let yoe : Int := y' - era * 400
  let doy : Int := (153 * (if 2 < m then (m : Int) - 3 else (m : Int) + 9) + 2) / 5 + (d : Int) - 1
  let doe : Int := yoe * 365 + yoe / 4 - yoe / 100 + doy
  era * 146097 + doe - 719468

/-- Unix epoch seconds of a UTC civil date and time. -/
def utcInstant (y : Int) (mo d h mi s : Nat) : Int :=
  daysFromCivil y mo d * 86400 + (h : Int) * 3600 + (mi : Int) * 60 + (s : Int)

/-- Fields accumulated while scanning a timestamp against a format string
(chrono's `Parsed`). -/
structure PState where
  year : Option Int := none
  month : Option Nat := none
  day : Option Nat := none
  hour : Option Nat := none
  minute : Option Nat := none
  second : Option Nat := none
  offset : Option Int := none

/-- Numeric value of a digit list. -/
def digitsVal (l : List Char) : Nat := l.foldl (fun a c => a * 10 + (c.toNat - 48)) 0

/-- Split off up to `n` leading digits. -/
def splitDigits : Nat → List Char → List Char × List Char
  | 0, l => ([], l)
  | _ + 1, [] => ([], [])
  | n + 1, c :: l =>
    if c.isDigit then
      let (d, r) := splitDigits n l
      (c :: d, r)
    else ([], c :: l)

/-- Scan a numeric field of at most `maxDigits` digits, as chrono's numeric
scanner: empty input is a premature end, a leading non-digit is invalid. -/
def parseNum (maxDigits : Nat) (input : List Char) : Except String (Nat × List Char) :=
  match input with
  | [] => .error "premature end of input"
  | c :: _ =>
    if c.isDigit then
      let (d, r) := splitDigits maxDigits input
      .ok (digitsVal d, r)
    else .error "input contains invalid characters"

/-- Range check applied when a parsed field is stored, as chrono's
`Parsed` setters. -/
def setInRange (lo hi n : Nat) : Except String Nat :=
  if lo ≤ n && n ≤ hi then .ok n else .error "input is out of range"

/-- Month number of a case-insensitive English month abbreviation. -/
def monthFromAbbrev (c1 c2 c3 : Char) : Option Nat :=
  let s := String.mk [c1.toLower, c2.toLower, c3.toLower]
  if s = "jan" then some 1 else if s = "feb" then some 2 else if s = "mar" then some 3
  else if s = "apr" then some 4 else if s = "may" then some 5 else if s = "jun" then some 6
  else if s = "jul" then some 7 else if s = "aug" then some 8 else if s = "sep" then some 9
  else if s = "oct" then some 10 else if s = "nov" then some 11 else if s = "dec" then some 12
  else none

/-- Match a literal character of the format against the input. -/
def expectChar (c : Char) (input : List Char) : Except String (List Char) :=
  match input with
  | [] => .error "premature end of input"
  | c' :: rest => if c' = c then .ok rest else .error "input contains invalid characters"

/-- Scan a `%z` timezone offset: a mandatory sign, two hour digits, an
optional colon, and two minute digits. -/
def parseOffset (input : List Char) : Except String (Int × List Char) :=
  match input with
  | [] => .error "premature end of input"
  | sign :: rest =>
    if sign = '+' || sign = '-' then
      match rest with
      | h1 :: h2 :: rest2 =>
        if h1.isDigit && h2.isDigit then
          let hh := digitsVal [h1, h2]
          let rest3 := match rest2 with
            | ':' :: r => r
            | r => r
          match rest3 with
          | m1 :: m2 :: rest4 =>
            if m1.isDigit && m2.isDigit then
              let mm := digitsVal [m1, m2]
              let off : Int := (hh : Int) * 3600 + (mm : Int) * 60
              .ok (if sign = '-' then -off else off, rest4)
            else .error "input contains invalid characters"
          | _ => .error "premature end of input"
        else .error "input contains invalid characters"
      | _ => .error "premature end of input"
    else .error "input contains invalid characters"

/-- Interpret a strftime format string over the input, chrono-style, for
the specifiers `parse_common_log`'s default format uses (`%d`, `%b`, `%Y`,
`%H`, `%M`, `%S`, `%T`, `%z`, `%%`); whitespace in the format consumes any
amount of input whitespace, other literals must match exactly, and an
unknown specifier is a bad-format error.  Error strings are chrono's
`ParseError` display strings. -/
def runFormat : List Char → List Char → PState → Except String (PState × List Char)
  | [], input, st => .ok (st, input)
  | '%' :: spec :: fmtRest, input, st =>
    match spec with
    | 'd' => do
      let (n, rest) ← parseNum 2 input
      let d ← setInRange 1 31 n
      runFormat fmtRest rest { st with day := some d }
    | 'b' =>
      (match input with
      | c1 :: c2 :: c3 :: rest =>
        match monthFromAbbrev c1 c2 c3 with
        | some m => runFormat fmtRest rest { st with month := some m }
        | none => .error "input contains invalid characters"
      | _ => .error "premature end of input")
    | 'Y' => do
      let (n, rest) ← parseNum 4 input
      runFormat fmtRest rest { st with year := some (n : Int) }
    | 'H' => do
      let (n, rest) ← parseNum 2 input
      let h ← setInRange 0 23 n
      runFormat fmtRest rest { st with hour := some h }
    | 'M' => do
      let (n, rest) ← parseNum 2 input
      let m ← setInRange 0 59 n
      runFormat fmtRest rest { st with minute := some m }
    | 'S' => do
      let (n, rest) ← parseNum 2 input
      let s ← setInRange 0 60 n
      runFormat fmtRest rest { st with second := some s }
    | 'T' => do
      let (hn, r1) ← parseNum 2 input
      let h ← setInRange 0 23 hn
      let r2 ← expectChar ':' r1
      let (mn, r3) ← parseNum 2 r2
      let m ← setInRange 0 59 mn
      let r4 ← expectChar ':' r3
      let (sn, r5) ← parseNum 2 r4
      let s ← setInRange 0 60 sn
      runFormat fmtRest r5 { st with hour := some h, minute := some m, second := some s }
    | 'z' => do
      let (off, rest) ← parseOffset input
      runFormat fmtRest rest { st with offset := some off }
    | '%' =>
      (match input with
      | [] => .error "premature end of input"
      | c :: rest =>
        if c = '%' then runFormat fmtRest rest st
        else .error "input contains invalid characters")
    | _ => .error "bad or unsupported format string"
  | c :: fmtRest, input, st =>
    if c.isWhitespace then
      runFormat fmtRest (input.dropWhile Char.isWhitespace) st
    else
      match input with
      | [] => .error "premature end of input"
      | c' :: rest =>
        if c' = c then runFormat fmtRest rest st
        else .error "input contains invalid characters"

/-- Gregorian leap-year rule. -/
def isLeapYear (y : Int) : Bool := y % 4 = 0 && (y % 100 ≠ 0 || y % 400 = 0)

/-- Days in a month of a given year. -/
def daysInMonth (y : Int) (m : Nat) : Nat :=
  if m = 2 then (if isLeapYear y then 29 else 28)
  else if m = 4 || m = 6 || m = 9 || m = 11 then 30
  else 31

/-- Models chrono's `DateTime::parse_from_str` to the extent
`parse_common_log` uses it: scan the input against the format, reject
trailing input, require a complete date, time and offset, reject an
impossible civil date, and return the instant as Unix epoch seconds
(local civil time minus the UTC offset). -/
def parseFromStr (fmt input : String) : Except String Int := do
  let (st, rest) ← runFormat fmt.data input.data {}
  if !rest.isEmpty then throw "trailing input"
  else
    match st.year, st.month, st.day, st.hour, st.minute, st.second, st.offset with
    | some y, some mo, some d, some h, some mi, some s, some off =>
      if d ≤ daysInMonth y mo then
        pure (daysFromCivil y mo d * 86400 + (h : Int) * 3600 + (mi : Int) * 60 + (s : Int) - off)
      else throw "no possible date and time matching input"
    | _, _, _, _, _, _, _ => throw "input is not enough for unique date and time"

/- ### Rust `str::parse::<i64>` -/

/-- Models Rust's `str::parse::<i64>`: an optional sign followed by at
least one digit, rejecting any other character and any value outside the
64-bit signed range. -/
def parseI64 (s : String) : Option Int :=
  let core : List Char → Bool → Option Int := fun l neg =>
    if l.isEmpty || !l.all Char.isDigit then none
    else
      let n := digitsVal l
      if neg then (if n ≤ 2 ^ 63 then some (-(n : Int)) else none)
      else (if n < 2 ^ 63 then some (n : Int) else none)
  match s.data with
  | '+' :: rest => core rest false
  | '-' :: rest => core rest true
  | l => core l false

/- ### The parse_common_log function (parse_common_log.rs) -/

/-- A `BTreeMap<String, Value>` as a key-sorted association list. -/
abbrev Rmap := List (String × Value)

/-- Lexicographic comparison of character lists by scalar value. -/
def charsLt : List Char → List Char → Bool
  | [], [] => false
  | [], _ :: _ => true
  | _ :: _, [] => false
  | c :: cs, d :: ds =>
    if c.toNat < d.toNat then true
    else if d.toNat < c.toNat then false
    else charsLt cs ds

/-- Rust `String` ordering (byte-wise lexicographic, which agrees with
scalar-value lexicographic order since UTF-8 preserves codepoint order). -/
def strLt (a b : String) : Bool := charsLt a.data b.data

/-- `BTreeMap::insert`: place the pair at its sorted position, replacing an
existing binding of the same key. -/
def insertMap : Rmap → String → Value → Rmap
  | [], k, v => [(k, v)]
  | (k', v') :: rest, k, v =>
    if strLt k k' then (k, v) :: (k', v') :: rest
    else if k = k' then (k, v) :: rest
    else (k', v') :: insertMap rest k v

/-- The default `timestamp_format` installed by `ParseCommonLog::compile`
(parse_common_log.rs line 58). -/
def defaultTimestampFormat : String := "%d/%b/%Y:%T %z"

/-- One string-field block of `ParseCommonLogFn::execute`: if the capture
is present, insert its text as a `Bytes` value under the key. -/
def stepStr (log : Rmap) (key : String) (field : Option String) : Rmap :=
  match field with
  | some s => insertMap log key (Value.bytes (utf8Encode s))
  | none => log

/-- The timestamp block of `ParseCommonLogFn::execute` (lines 104-118): a
present capture is parsed with the configured format and inserted as a
`Timestamp` value, and a parse failure fails the call with a message naming
the raw text, the format and the underlying error. -/
def stepTimestamp (log : Rmap) (fmt : String) : Option String → Except String Rmap
  | none => .ok log
  | some t =>
    match parseFromStr fmt t with
    | .error e =>
      .error ("failed parsing timestamp " ++ t ++ " using format " ++ fmt ++ ": " ++ e)
    | .ok ts => .ok (insertMap log "timestamp" (Value.timestamp ts))

/-- The status/size blocks of `ParseCommonLogFn::execute` (lines 136-148):
a present capture is parsed as an `i64` and inserted as an `Integer` value,
and a parse failure fails the call with the block's fixed message. -/
def stepInt (log : Rmap) (key errMsg : String) : Option String → Except String Rmap
  | none => .ok log
  | some t =>
    match parseI64 t with
    | none => .error errMsg
    | some n => .ok (insertMap log key (Value.integer n))

/-- The capture-processing tail of `ParseCommonLogFn::execute` (lines
92-150): each named capture, in source order, is converted and inserted
into the `BTreeMap`, with conversion failures aborting the call. -/
def processCaptures (c : Caps) (fmt : String) : Except String Value :=
  let log := stepStr [] "host" c.host
  let log := stepStr log "identity" c.identity
  let log := stepStr log "user" c.user
  match stepTimestamp log fmt c.timestamp with
  | .error e => .error e
  | .ok log =>
    let log := stepStr log "message" c.message
    let log := stepStr log "method" c.method
    let log := stepStr log "path" c.path
    let log := stepStr log "protocol" c.protocol
    match stepInt log "status" "failed parsing status code" c.status with
    | .error e => .error e
    | .ok log =>
      match stepInt log "size" "failed parsing content length" c.size with
      | .error e => .error e
      | .ok log => .ok (Value.map log)

/-- Embeds `ParseCommonLogFn::execute` (parse_common_log.rs lines 82-151).
The `value` sub-expression is represented by its evaluation outcome; its
result must be bytes, is decoded lossily, matched against
`REGEX_COMMON_LOG` (failing with the fixed message when the pattern does
not match), and the captures are converted and collected into a map. -/
def ParseCommonLogFn.execute (value : Except String Value) (fmt : String) :
    Except String Value :=
  match value with
  | .error e => .error e
  | .ok v =>
    match v.try_bytes with
    | .error e => .error e
    | .ok b =>
      match regexCaptures (utf8Lossy b) with
      | none => .error "failed parsing common log line"
      | some c => processCaptures c fmt

/- ### Helper lemmas -/

/-- Whether a runtime value is a byte string. -/
def Value.isBytes : Value → Bool
  | .bytes _ => true
  | _ => false

theorem utf8Encode_append (a b : String) :
    utf8Encode (a ++ b) = utf8Encode a ++ utf8Encode b := by
  simp [utf8Encode, String.data_append]

theorem joinStrings_encode (sep : String) (l : List String) :
    utf8Encode (joinStrings sep l) = joinBytes (utf8Encode sep) (l.map utf8Encode) := by
  induction l with
  | nil => rfl
  | cons s rest ih =>
    cases rest with
    | nil => rfl
    | cons s2 rest2 =>
      simp only [joinStrings, joinBytes, List.map_cons, utf8Encode_append]
      rw [ih]
      simp [joinBytes, List.append_assoc]

theorem traverseLossy_bytes (l : List (List Nat)) :
    traverseLossy (l.map Value.bytes) = .ok (l.map utf8Lossy) := by
  induction l with
  | nil => rfl
  | cons b rest ih => simp [traverseLossy, Value.try_bytes_utf8_lossy, ih]

theorem try_lossy_error_of_not_bytes (v : Value) (h : v.isBytes = false) :
    ∃ e, v.try_bytes_utf8_lossy = .error e := by
  cases v <;> simp_all [Value.isBytes, Value.try_bytes_utf8_lossy]

theorem traverseLossy_error (l : List Value) (h : ∃ x ∈ l, x.isBytes = false) :
    ∃ e, traverseLossy l = .error e := by
  induction l with
  | nil => simp at h
  | cons v rest ih =>
    by_cases hv : v.isBytes = false
    · obtain ⟨e, he⟩ := try_lossy_error_of_not_bytes v hv
      exact ⟨e, by simp [traverseLossy, he]⟩
    · obtain ⟨x, hx, hxb⟩ := h
      rcases List.mem_cons.mp hx with rfl | hxr
      · exact absurd hxb hv
      · obtain ⟨e, he⟩ := ih ⟨x, hxr, hxb⟩
        rcases hvl : v.try_bytes_utf8_lossy with e' | s
        · exact ⟨e', by simp [traverseLossy, hvl]⟩
        · exact ⟨e, by simp [traverseLossy, hvl, he]⟩

/- ### Claim C1 -/

/-- C1, counterexample: for an array whose single element is the invalid
UTF-8 byte string `[0xFF]` and the empty separator, `join` does not return
the concatenation of the elements — lossy decoding replaces the invalid
byte with U+FFFD, whose UTF-8 encoding is `[0xEF, 0xBF, 0xBD]`. -/
theorem join_concat_counterexample :
    JoinFn.execute (.ok (.array [.bytes [255]])) (some (.ok (.bytes []))) =
      .ok (Value.bytes [239, 191, 189]) ∧
    JoinFn.execute (.ok (.array [.bytes [255]])) (some (.ok (.bytes []))) ≠
      .ok (Value.bytes [255]) := by
  refine ⟨rfl, fun h => ?_⟩
  have h2 : (Except.ok (Value.bytes [239, 191, 189]) : Except String Value) =
      .ok (Value.bytes [255]) := h
  injection h2 with h3
  injection h3 with h4
  exact absurd h4 (by decide)

/-- C1 (amended): for every array of byte-string values whose bytes are
valid UTF-8 (lossy decoding leaves them unchanged) and every separator that
evaluates to valid-UTF-8 bytes `s`, `join` returns Ok of the elements
concatenated with `s` between consecutive elements; `join` of the empty
array returns the empty byte string; and for every value outcome, calling
`join` with no separator returns the same result as with the empty-string
separator. -/
theorem join_concat_spec (elems : List (List Nat)) (sep : List Nat)
    (helem : ∀ b ∈ elems, utf8Encode (utf8Lossy b) = b)
    (hsep : utf8Encode (utf8Lossy sep) = sep) :
    JoinFn.execute (.ok (.array (elems.map Value.bytes))) (some (.ok (.bytes sep))) =
      .ok (Value.bytes (joinBytes sep elems)) ∧
    JoinFn.execute (.ok (.array [])) (some (.ok (.bytes sep))) = .ok (Value.bytes []) ∧
    (∀ v, JoinFn.execute v none = JoinFn.execute v (some (.ok (.bytes [])))) := by
  refine ⟨?_, rfl, ?_⟩
  · show (match traverseLossy (elems.map Value.bytes) with
      | .error _ => Except.error "all array items must be strings"
      | .ok strs => .ok (Value.bytes (utf8Encode (joinStrings (utf8Lossy sep) strs)))) = _
    rw [traverseLossy_bytes]
    show Except.ok (Value.bytes (utf8Encode (joinStrings (utf8Lossy sep) (elems.map utf8Lossy)))) = _
    have : utf8Encode (joinStrings (utf8Lossy sep) (elems.map utf8Lossy)) =
        joinBytes sep elems := by
      rw [joinStrings_encode, hsep, List.map_map]
      congr 1
      calc elems.map (utf8Encode ∘ utf8Lossy) = elems.map id :=
            List.map_congr_left (fun b hb => helem b hb)
        _ = elems := List.map_id elems
    rw [this]
  · intro v
    unfold JoinFn.execute
    cases v with
    | error e => rfl
    | ok v =>
      rcases v.try_array with e | arr
      · rfl
      · rcases traverseLossy arr with e | strs <;> rfl

/-- C1, witness. -/
theorem join_concat_spec_witness :
    (∀ b ∈ [utf8Encode "one", utf8Encode "two", utf8Encode "three"],
      utf8Encode (utf8Lossy b) = b) ∧
    utf8Encode (utf8Lossy (utf8Encode ", ")) = utf8Encode ", " ∧
    JoinFn.execute
      (.ok (.array ([utf8Encode "one", utf8Encode "two", utf8Encode "three"].map Value.bytes)))
      (some (.ok (.bytes (utf8Encode ", ")))) =
      .ok (Value.bytes (joinBytes (utf8Encode ", ")
        [utf8Encode "one", utf8Encode "two", utf8Encode "three"])) :=
  ⟨by decide, by decide,
    (join_concat_spec [utf8Encode "one", utf8Encode "two", utf8Encode "three"]
      (utf8Encode ", ") (by decide) (by decide)).1⟩

/- ### Claim C5 -/

/-- C5: every array containing at least one non-byte-string element makes
`join` fail with the fixed message, whatever the separator argument and
wherever the offending element sits. -/
theorem join_non_string_error (l : List Value) (sep : Option (Except String Value))
    (h : ∃ x ∈ l, x.isBytes = false) :
    JoinFn.execute (.ok (.array l)) sep = .error "all array items must be strings" := by
  obtain ⟨e, he⟩ := traverseLossy_error l h
  show (match traverseLossy l with
    | .error _ => Except.error "all array items must be strings"
    | .ok strs => _) = _
  rw [he]

/-- C5, witness: the repository's own test input `["one", "two", 3]`. -/
theorem join_non_string_error_witness :
    (∃ x ∈ [Value.bytes (utf8Encode "one"), Value.bytes (utf8Encode "two"), Value.integer 3],
      x.isBytes = false) ∧
    JoinFn.execute
      (.ok (.array [Value.bytes (utf8Encode "one"), Value.bytes (utf8Encode "two"),
        Value.integer 3])) none = .error "all array items must be strings" :=
  ⟨⟨Value.integer 3, by simp, rfl⟩,
    join_non_string_error _ none ⟨Value.integer 3, by simp, rfl⟩⟩

/- ### Claim C10 -/

/-- C10: on an all-byte-string array `join` never produces the
"all array items must be strings" error — invalid UTF-8 in elements or
separator is replaced by lossy decoding instead, and the call succeeds with
the join of the lossily decoded strings whenever the separator resolves to
bytes. -/
theorem join_all_bytes_lossy :
    (∀ (elems : List (List Nat)) (sb : List Nat),
      JoinFn.execute (.ok (.array (elems.map Value.bytes))) (some (.ok (.bytes sb))) =
        .ok (Value.bytes (utf8Encode (joinStrings (utf8Lossy sb) (elems.map utf8Lossy))))) ∧
    (∀ (elems : List (List Nat)) (v : Value),
      JoinFn.execute (.ok (.array (elems.map Value.bytes))) (some (.ok v)) ≠
        .error "all array items must be strings") ∧
    (∀ elems : List (List Nat),
      JoinFn.execute (.ok (.array (elems.map Value.bytes))) none ≠
        .error "all array items must be strings") := by
  refine ⟨?_, ?_, ?_⟩
  · intro elems sb
    show (match traverseLossy (elems.map Value.bytes) with
      | .error _ => Except.error "all array items must be strings"
      | .ok strs => .ok (Value.bytes (utf8Encode (joinStrings (utf8Lossy sb) strs)))) = _
    rw [traverseLossy_bytes]
  · intro elems v
    show (match traverseLossy (elems.map Value.bytes) with
      | .error _ => Except.error "all array items must be strings"
      | .ok strs =>
        match v.try_bytes with
        | .error e => Except.error e
        | .ok sb => .ok (Value.bytes (utf8Encode (joinStrings (utf8Lossy sb) strs)))) ≠ _
    rw [traverseLossy_bytes]
    have hne : ∀ kn : String, "expected bytes, got " ++ kn ≠ "all array items must be strings" := by
      intro kn h
      have h2 : 'e' :: ("xpected bytes, got ".data ++ kn.data) =
          'a' :: "ll array items must be strings".data := congrArg String.data h
      injection h2 with h3 h4
      exact absurd h3 (by decide)
    cases v with
    | bytes b => intro h; exact Except.noConfusion h
    | integer i => intro h; injection h with h2; exact absurd h2 (hne _)
    | float f => intro h; injection h with h2; exact absurd h2 (hne _)
    | boolean b => intro h; injection h with h2; exact absurd h2 (hne _)
    | timestamp t => intro h; injection h with h2; exact absurd h2 (hne _)
    | array l => intro h; injection h with h2; exact absurd h2 (hne _)
    | map m => intro h; injection h with h2; exact absurd h2 (hne _)
    | null => intro h; injection h with h2; exact absurd h2 (hne _)
    | regexV p => intro h; injection h with h2; exact absurd h2 (hne _)
  · intro elems
    show (match traverseLossy (elems.map Value.bytes) with
      | .error _ => Except.error "all array items must be strings"
      | .ok strs => .ok (Value.bytes (utf8Encode (joinStrings "" strs)))) ≠ _
    rw [traverseLossy_bytes]
    intro h
    exact Except.noConfusion h

/- ### Claims C3 and C4 -/

/-- C3: for both built-in nodes, a fallible `value` sub-expression makes
the wrapping node's type definition fallible — `join` forces fallibility
unconditionally, and `parse_common_log`'s `fallible_unless` never clears an
already-set fallibility flag. -/
theorem type_def_fallible_monotone (child : TypeDef) (h : child.fallible = true) :
    (JoinFn.type_def child).fallible = true ∧
    (ParseCommonLogFn.type_def child).fallible = true := by
  constructor
  · rfl
  · unfold ParseCommonLogFn.type_def TypeDef.fallible_unless TypeDef.with_constraint
    split <;> simp [h]

/-- C3, witness. -/
theorem type_def_fallible_monotone_witness :
    (TypeDef.mk true [VKind.integer]).fallible = true ∧
    ((JoinFn.type_def (TypeDef.mk true [VKind.integer])).fallible = true ∧
     (ParseCommonLogFn.type_def (TypeDef.mk true [VKind.integer])).fallible = true) :=
  ⟨rfl, type_def_fallible_monotone (TypeDef.mk true [VKind.integer]) rfl⟩

/-- C4: for every child descriptor, `parse_common_log`'s type definition
constrains the output kind to `Map`, and reports fallible exactly when the
child is fallible or the child's kind is not known to be `Bytes`; in
particular a kind outside `Bytes` always makes it fallible. -/
theorem parse_common_log_type_def_spec (child : TypeDef) :
    (ParseCommonLogFn.type_def child).kind = [VKind.map] ∧
    (ParseCommonLogFn.type_def child).fallible =
      (child.fallible || !(child.kind.subsetOf [VKind.bytes])) := by
  unfold ParseCommonLogFn.type_def TypeDef.fallible_unless TypeDef.with_constraint
  cases hb : child.kind.subsetOf [VKind.bytes] <;> simp [hb]

/- ### Map and step lemmas -/

theorem insertMap_mem {p : String × Value} {l : Rmap} {k : String} {v : Value}
    (h : p ∈ insertMap l k v) : p = (k, v) ∨ p ∈ l := by
  induction l with
  | nil => simpa [insertMap] using h
  | cons hd tl ih =>
    obtain ⟨k', v'⟩ := hd
    unfold insertMap at h
    split at h
    · rcases List.mem_cons.mp h with h1 | h1
      · exact Or.inl h1
      · exact Or.inr h1
    · split at h
      · rcases List.mem_cons.mp h with h1 | h1
        · exact Or.inl h1
        · exact Or.inr (List.mem_cons_of_mem _ h1)
      · rcases List.mem_cons.mp h with h1 | h1
        · exact Or.inr (h1 ▸ List.mem_cons_self _ _)
        · rcases ih h1 with h2 | h2
          · exact Or.inl h2
          · exact Or.inr (List.mem_cons_of_mem _ h2)

theorem mem_insertMap_self (l : Rmap) (k : String) (v : Value) :
    (k, v) ∈ insertMap l k v := by
  induction l with
  | nil => simp [insertMap]
  | cons hd tl ih =>
    obtain ⟨k', v'⟩ := hd
    unfold insertMap
    split
    · exact List.mem_cons_self _ _
    · split
      · exact List.mem_cons_self _ _
      · exact List.mem_cons_of_mem _ ih

theorem mem_insertMap_of_ne {p : String × Value} {l : Rmap} {k : String} {v : Value}
    (hp : p ∈ l) (hne : p.1 ≠ k) : p ∈ insertMap l k v := by
  induction l with
  | nil => simp at hp
  | cons hd tl ih =>
    obtain ⟨k', v'⟩ := hd
    unfold insertMap
    split
    · exact List.mem_cons_of_mem _ hp
    · split
      · next heq =>
        rcases List.mem_cons.mp hp with h1 | h1
        · exact absurd (by rw [h1, heq]) hne
        · exact List.mem_cons_of_mem _ h1
      · rcases List.mem_cons.mp hp with h1 | h1
        · exact h1 ▸ List.mem_cons_self _ _
        · exact List.mem_cons_of_mem _ (ih h1)

theorem stepStr_mem {p : String × Value} {log : Rmap} {key : String} {f : Option String}
    (h : p ∈ stepStr log key f) : p ∈ log ∨ (p.1 = key ∧ f.isSome = true) := by
  cases f with
  | none => exact Or.inl h
  | some s =>
    rcases insertMap_mem h with h1 | h1
    · exact Or.inr ⟨by rw [h1], rfl⟩
    · exact Or.inl h1

theorem stepTimestamp_ok_mem {p : String × Value} {log log' : Rmap} {fmt : String}
    {f : Option String} (h : stepTimestamp log fmt f = .ok log') (hp : p ∈ log') :
    p ∈ log ∨ (p.1 = "timestamp" ∧ f.isSome = true) := by
  cases f with
  | none =>
    injection h with h2
    exact Or.inl (h2 ▸ hp)
  | some t =>
    simp only [stepTimestamp] at h
    split at h
    · exact Except.noConfusion h
    · injection h with h2
      rcases insertMap_mem (h2 ▸ hp) with h1 | h1
      · exact Or.inr ⟨by rw [h1], rfl⟩
      · exact Or.inl h1

theorem stepInt_ok_mem {p : String × Value} {log log' : Rmap} {key msg : String}
    {f : Option String} (h : stepInt log key msg f = .ok log') (hp : p ∈ log') :
    p ∈ log ∨ (p.1 = key ∧ f.isSome = true) := by
  cases f with
  | none =>
    injection h with h2
    exact Or.inl (h2 ▸ hp)
  | some t =>
    simp only [stepInt] at h
    split at h
    · exact Except.noConfusion h
    · injection h with h2
      rcases insertMap_mem (h2 ▸ hp) with h1 | h1
      · exact Or.inr ⟨by rw [h1], rfl⟩
      · exact Or.inl h1

theorem stepTimestamp_ok_exists (log : Rmap) (fmt : String) (f : Option String)
    (h : ∀ t', f = some t' → ∃ v, parseFromStr fmt t' = .ok v) :
    ∃ log', stepTimestamp log fmt f = .ok log' := by
  cases f with
  | none => exact ⟨log, rfl⟩
  | some t =>
    obtain ⟨v, hv⟩ := h t rfl
    exact ⟨insertMap log "timestamp" (Value.timestamp v), by simp [stepTimestamp, hv]⟩

theorem stepInt_ok_exists (log : Rmap) (key msg : String) (f : Option String)
    (h : ∀ t', f = some t' → ∃ n, parseI64 t' = some n) :
    ∃ log', stepInt log key msg f = .ok log' := by
  cases f with
  | none => exact ⟨log, rfl⟩
  | some t =>
    obtain ⟨n, hn⟩ := h t rfl
    exact ⟨insertMap log key (Value.integer n), by simp [stepInt, hn]⟩

/- ### Claim C2 -/

/-- C2: on the canonical example line with the default timestamp format,
`parse_common_log` succeeds with a map holding exactly the keys host,
identity, message, method, path, protocol, size, status, timestamp and
user (in `BTreeMap` key order), where status and size are the integers 200
and 2326, the string fields are the captured substrings as bytes, and the
timestamp is the UTC instant 2000-10-10T20:55:36Z. -/
theorem parse_common_log_canonical :
    ParseCommonLogFn.execute
      (.ok (.bytes (utf8Encode
        "127.0.0.1 bob frank [10/Oct/2000:13:55:36 -0700] \"GET /apache_pb.gif HTTP/1.0\" 200 2326")))
      defaultTimestampFormat =
    .ok (Value.map [
      ("host", Value.bytes (utf8Encode "127.0.0.1")),
      ("identity", Value.bytes (utf8Encode "bob")),
      ("message", Value.bytes (utf8Encode "GET /apache_pb.gif HTTP/1.0")),
      ("method", Value.bytes (utf8Encode "GET")),
      ("path", Value.bytes (utf8Encode "/apache_pb.gif")),
      ("protocol", Value.bytes (utf8Encode "HTTP/1.0")),
      ("size", Value.integer 2326),
      ("status", Value.integer 200),
      ("timestamp", Value.timestamp (utcInstant 2000 10 10 20 55 36)),
      ("user", Value.bytes (utf8Encode "frank"))]) := rfl

/- ### Claim C7 -/

/-- C7: whenever the lossily decoded input does not match the common-log
pattern, `parse_common_log` fails with exactly the fixed message. -/
theorem parse_common_log_no_match (b : List Nat) (fmt : String)
    (h : regexCaptures (utf8Lossy b) = none) :
    ParseCommonLogFn.execute (.ok (.bytes b)) fmt =
      .error "failed parsing common log line" := by
  show (match regexCaptures (utf8Lossy b) with
    | none => Except.error "failed parsing common log line"
    | some c => processCaptures c fmt) = _
  rw [h]

/-- C7, witness: the repository's own malformed test input. -/
theorem parse_common_log_no_match_witness :
    regexCaptures (utf8Lossy (utf8Encode "not a common log line")) = none ∧
    ParseCommonLogFn.execute (.ok (.bytes (utf8Encode "not a common log line")))
      defaultTimestampFormat = .error "failed parsing common log line" :=
  ⟨by decide, parse_common_log_no_match _ defaultTimestampFormat (by decide)⟩

/- ### Claim C8 -/

theorem processCaptures_bad_timestamp (c : Caps) (fmt t e : String)
    (h2 : c.timestamp = some t) (h3 : parseFromStr fmt t = .error e) :
    processCaptures c fmt =
      .error ("failed parsing timestamp " ++ t ++ " using format " ++ fmt ++ ": " ++ e) := by
  unfold processCaptures
  rw [h2]
  simp only [stepTimestamp, h3]

/-- C8: whenever the pattern matches with a timestamp capture whose text
does not parse under the configured format, `parse_common_log` fails with
a message naming the raw captured text, the format string and the
underlying parse error. -/
theorem parse_common_log_bad_timestamp (b : List Nat) (fmt : String) (c : Caps) (t e : String)
    (h1 : regexCaptures (utf8Lossy b) = some c)
    (h2 : c.timestamp = some t)
    (h3 : parseFromStr fmt t = .error e) :
    ParseCommonLogFn.execute (.ok (.bytes b)) fmt =
      .error ("failed parsing timestamp " ++ t ++ " using format " ++ fmt ++ ": " ++ e) := by
  show (match regexCaptures (utf8Lossy b) with
    | none => Except.error "failed parsing common log line"
    | some c => processCaptures c fmt) = _
  rw [h1]
  exact processCaptures_bad_timestamp c fmt t e h2 h3

/-- C8, witness: the repository's own test input `- - - [1234] - - -` with
the default format, reproducing the repository's expected error message. -/
theorem parse_common_log_bad_timestamp_witness :
    regexCaptures (utf8Lossy (utf8Encode "- - - [1234] - - -")) =
      some { timestamp := some "1234" } ∧
    parseFromStr defaultTimestampFormat "1234" = .error "input contains invalid characters" ∧
    ParseCommonLogFn.execute (.ok (.bytes (utf8Encode "- - - [1234] - - -")))
      defaultTimestampFormat =
      .error "failed parsing timestamp 1234 using format %d/%b/%Y:%T %z: input contains invalid characters" :=
  ⟨by decide, rfl,
    parse_common_log_bad_timestamp _ defaultTimestampFormat { timestamp := some "1234" }
      "1234" "input contains invalid characters" (by decide) rfl rfl⟩

/- ### Claim C6 -/

/-- Whether the capture that feeds map key `k` is present in `c`. -/
def keyPresent (c : Caps) (k : String) : Bool :=
  if k = "host" then c.host.isSome
  else if k = "identity" then c.identity.isSome
  else if k = "user" then c.user.isSome
  else if k = "timestamp" then c.timestamp.isSome
  else if k = "message" then c.message.isSome
  else if k = "method" then c.method.isSome
  else if k = "path" then c.path.isSome
  else if k = "protocol" then c.protocol.isSome
  else if k = "status" then c.status.isSome
  else if k = "size" then c.size.isSome
  else false

theorem processCaptures_keys (c : Caps) (fmt : String) (m : Rmap)
    (h : processCaptures c fmt = .ok (.map m)) :
    ∀ p ∈ m, keyPresent c p.1 = true := by
  intro p hp
  unfold processCaptures at h
  simp only [] at h
  split at h
  · exact Except.noConfusion h
  · next log1 hts =>
    split at h
    · exact Except.noConfusion h
    · next log2 hst =>
      split at h
      · exact Except.noConfusion h
      · next log3 hsz =>
        injection h with h4
        injection h4 with h5
        subst h5
        rcases stepInt_ok_mem hsz hp with hp2 | ⟨hk, hs⟩
        · rcases stepInt_ok_mem hst hp2 with hp3 | ⟨hk, hs⟩
          · rcases stepStr_mem hp3 with hp4 | ⟨hk, hs⟩
            · rcases stepStr_mem hp4 with hp5 | ⟨hk, hs⟩
              · rcases stepStr_mem hp5 with hp6 | ⟨hk, hs⟩
                · rcases stepStr_mem hp6 with hp7 | ⟨hk, hs⟩
                  · rcases stepTimestamp_ok_mem hts hp7 with hp8 | ⟨hk, hs⟩
                    · rcases stepStr_mem hp8 with hp9 | ⟨hk, hs⟩
                      · rcases stepStr_mem hp9 with hp10 | ⟨hk, hs⟩
                        · rcases stepStr_mem hp10 with hp11 | ⟨hk, hs⟩
                          · simp at hp11
                          · rw [hk]; simp [keyPresent, hs]
                        · rw [hk]; simp [keyPresent, hs]
                      · rw [hk]; simp [keyPresent, hs]
                    · rw [hk]; simp [keyPresent, hs]
                  · rw [hk]; simp [keyPresent, hs]
                · rw [hk]; simp [keyPresent, hs]
              · rw [hk]; simp [keyPresent, hs]
            · rw [hk]; simp [keyPresent, hs]
          · rw [hk]; simp [keyPresent, hs]
        · rw [hk]; simp [keyPresent, hs]

/-- C6: the two all-absent lines produce an empty map rather than an
error, and in general every key of the result map comes from a capture
that was present — absent fields are omitted entirely. -/
theorem parse_common_log_absent_fields :
    ParseCommonLogFn.execute (.ok (.bytes (utf8Encode "- - - - - - -")))
      defaultTimestampFormat = .ok (Value.map []) ∧
    ParseCommonLogFn.execute (.ok (.bytes (utf8Encode "- - - [-] \"-\" - -")))
      defaultTimestampFormat = .ok (Value.map []) ∧
    ∀ (c : Caps) (fmt : String) (m : Rmap),
      processCaptures c fmt = .ok (.map m) → ∀ p ∈ m, keyPresent c p.1 = true :=
  ⟨rfl, rfl, processCaptures_keys⟩

/- ### Claim C9 -/

theorem stepInt_ok_mem_of {p : String × Value} {log log' : Rmap} {key msg : String}
    {f : Option String} (h : stepInt log key msg f = .ok log') (hp : p ∈ log)
    (hne : p.1 ≠ key) : p ∈ log' := by
  cases f with
  | none =>
    injection h with h2
    exact h2 ▸ hp
  | some t =>
    simp only [stepInt] at h
    split at h
    · exact Except.noConfusion h
    · injection h with h2
      exact h2 ▸ mem_insertMap_of_ne hp hne

theorem processCaptures_bad_status (c : Caps) (fmt t : String)
    (h2 : c.status = some t) (h3 : parseI64 t = none)
    (h4 : ∀ t', c.timestamp = some t' → ∃ v, parseFromStr fmt t' = .ok v) :
    processCaptures c fmt = .error "failed parsing status code" := by
  unfold processCaptures
  simp only []
  obtain ⟨log1, hlog1⟩ := stepTimestamp_ok_exists
    (stepStr (stepStr (stepStr [] "host" c.host) "identity" c.identity) "user" c.user)
    fmt c.timestamp h4
  rw [hlog1, h2]
  simp only [stepInt, h3]

theorem processCaptures_bad_size (c : Caps) (fmt t : String)
    (h2 : c.size = some t) (h3 : parseI64 t = none)
    (h4 : ∀ t', c.timestamp = some t' → ∃ v, parseFromStr fmt t' = .ok v)
    (h5 : ∀ t', c.status = some t' → ∃ n, parseI64 t' = some n) :
    processCaptures c fmt = .error "failed parsing content length" := by
  unfold processCaptures
  simp only []
  obtain ⟨log1, hlog1⟩ := stepTimestamp_ok_exists
    (stepStr (stepStr (stepStr [] "host" c.host) "identity" c.identity) "user" c.user)
    fmt c.timestamp h4
  simp only [hlog1]
  obtain ⟨log2, hlog2⟩ := stepInt_ok_exists
    (stepStr (stepStr (stepStr (stepStr log1 "message" c.message) "method" c.method)
      "path" c.path) "protocol" c.protocol)
    "status" "failed parsing status code" c.status h5
  simp only [hlog2, h2]
  simp only [stepInt, h3]

theorem processCaptures_ok_ints (c : Caps) (fmt : String) (m : Rmap)
    (h : processCaptures c fmt = .ok (.map m)) :
    (∀ t, c.status = some t → ∃ n, parseI64 t = some n ∧ ("status", Value.integer n) ∈ m) ∧
    (∀ t, c.size = some t → ∃ n, parseI64 t = some n ∧ ("size", Value.integer n) ∈ m) := by
  unfold processCaptures at h
  simp only [] at h
  split at h
  · exact Except.noConfusion h
  · next log1 hts =>
    split at h
    · exact Except.noConfusion h
    · next log2 hst =>
      split at h
      · exact Except.noConfusion h
      · next log3 hsz =>
        injection h with h4
        injection h4 with h5
        subst h5
        constructor
        · intro t ht
          rw [ht] at hst
          simp only [stepInt] at hst
          split at hst
          · exact Except.noConfusion hst
          · next n hn =>
            injection hst with h6
            refine ⟨n, hn, ?_⟩
            exact stepInt_ok_mem_of hsz (h6 ▸ mem_insertMap_self _ _ _)
              (fun hh => absurd (show ("status" : String) = "size" from hh) (by decide))
        · intro t ht
          rw [ht] at hsz
          simp only [stepInt] at hsz
          split at hsz
          · exact Except.noConfusion hsz
          · next n hn =>
            injection hsz with h6
            exact ⟨n, hn, h6 ▸ mem_insertMap_self _ _ _⟩

/-- C9: whenever the pattern captures a status or size field, the captured
text is parsed as a 64-bit integer — on success the value is inserted as an
Integer under the key "status" or "size", and on failure the call fails
with "failed parsing status code" or "failed parsing content length"
respectively (earlier fields are assumed not to fail first: the timestamp
must parse for either error, and the status must parse for the size
error, matching the source's processing order). -/
theorem parse_common_log_int_fields :
    (∀ (b : List Nat) (fmt : String) (c : Caps) (t : String),
      regexCaptures (utf8Lossy b) = some c → c.status = some t → parseI64 t = none →
      (∀ t', c.timestamp = some t' → ∃ v, parseFromStr fmt t' = .ok v) →
      ParseCommonLogFn.execute (.ok (.bytes b)) fmt = .error "failed parsing status code") ∧
    (∀ (b : List Nat) (fmt : String) (c : Caps) (t : String),
      regexCaptures (utf8Lossy b) = some c → c.size = some t → parseI64 t = none →
      (∀ t', c.timestamp = some t' → ∃ v, parseFromStr fmt t' = .ok v) →
      (∀ t', c.status = some t' → ∃ n, parseI64 t' = some n) →
      ParseCommonLogFn.execute (.ok (.bytes b)) fmt = .error "failed parsing content length") ∧
    (∀ (b : List Nat) (fmt : String) (c : Caps) (m : Rmap),
      regexCaptures (utf8Lossy b) = some c →
      ParseCommonLogFn.execute (.ok (.bytes b)) fmt = .ok (.map m) →
      (∀ t, c.status = some t → ∃ n, parseI64 t = some n ∧ ("status", Value.integer n) ∈ m) ∧
      (∀ t, c.size = some t → ∃ n, parseI64 t = some n ∧ ("size", Value.integer n) ∈ m)) := by
  refine ⟨?_, ?_, ?_⟩
  · intro b fmt c t h1 h2 h3 h4
    show (match regexCaptures (utf8Lossy b) with
      | none => Except.error "failed parsing common log line"
      | some c => processCaptures c fmt) = _
    rw [h1]
    exact processCaptures_bad_status c fmt t h2 h3 h4
  · intro b fmt c t h1 h2 h3 h4 h5
    show (match regexCaptures (utf8Lossy b) with
      | none => Except.error "failed parsing common log line"
      | some c => processCaptures c fmt) = _
    rw [h1]
    exact processCaptures_bad_size c fmt t h2 h3 h4 h5
  · intro b fmt c m h1 h2
    refine processCaptures_ok_ints c fmt m ?_
    rw [show ParseCommonLogFn.execute (.ok (.bytes b)) fmt =
      (match regexCaptures (utf8Lossy b) with
        | none => Except.error "failed parsing common log line"
        | some c => processCaptures c fmt) from rfl, h1] at h2
    exact h2

/-- C9, witness: a status capture of twenty nines overflows `i64` and
triggers the status error path on a line whose other fields are absent. -/
theorem parse_common_log_int_fields_witness :
    regexCaptures (utf8Lossy (utf8Encode "- - - - - 99999999999999999999 -")) =
      some { status := some "99999999999999999999" } ∧
    parseI64 "99999999999999999999" = none ∧
    ParseCommonLogFn.execute (.ok (.bytes (utf8Encode "- - - - - 99999999999999999999 -")))
      defaultTimestampFormat = .error "failed parsing status code" :=
  ⟨by decide, by decide,
    parse_common_log_int_fields.1 _ defaultTimestampFormat
      { status := some "99999999999999999999" } "99999999999999999999"
      (by decide) rfl (by decide) (fun t' h => nomatch h)⟩
